import Mathlib

/-
  Shallow embedding of the UUID bruteforce benchmark: the coordinator of the
  unnamed main module and the search worker of the worker source file.

  Modelling conventions.
  * JavaScript bigint counters (declared 0n, incremented with checked++) are
    modelled as Nat; both are unbounded integers.
  * The derivation oracle UUID.v5 is an external library function, out of
    scope per the spec; it is an opaque-as-a-parameter function
    uuidv5 : Cand -> Cand -> Pub, always applied in the source as
    UUID.v5(c, c).
  * UUID.v4() yields a fresh random value per call; the random stream is a
    parameter gen : Nat -> Cand with a position counter threaded through the
    worker loop.
  * checked.toString() at postMessage and BigInt(checked) at the coordinator
    are modelled as the decimal digit list Nat.digits 10 and its inverse
    Nat.ofDigits 10.
  * process.exit(0) terminates the process; after it, the runtime dispatches
    no further message handler, timer tick, or signal handler. The dispatcher
    function step models this with its exitCode guard.
  * Presentation-only pieces (chalk colouring, elapsed time, speed, the text
    of each console line) are out of scope per the spec; each console output
    is modelled by the data it reports.
-/

namespace UUIDBench

/-- Batch size of the worker loop, worker source line 5. -/
def BATCH_SIZE : Nat := 100000

/-- Worker-to-coordinator message before serialization; the checked counter
is the worker's bigint counter, modelled as Nat. -/
inductive WorkerMsg (Cand : Type) where
  | progress (workerId : Nat) (checked : Nat)
  | found (workerId : Nat) (candidate : Cand) (checked : Nat)
deriving DecidableEq

/-- Message as it crosses the postMessage boundary: the checked counter is
serialized as its decimal digits, little endian. -/
inductive WireMsg (Cand : Type) where
  | progress (workerId : Nat) (checked : List Nat)
  | found (workerId : Nat) (candidate : Cand) (checked : List Nat)
deriving DecidableEq

/-- Serialization applied at postMessage in the worker, lines 28 and 35 of
the worker source: the checked counter travels as a decimal digit string. -/
def toWire {Cand : Type} : WorkerMsg Cand → WireMsg Cand
  | .progress w c => .progress w (Nat.digits 10 c)
  | .found w cand c => .found w cand (Nat.digits 10 c)

/-- The checked counter carried by an unserialized worker message. -/
def WorkerMsg.checkedVal {Cand : Type} : WorkerMsg Cand → Nat
  | .progress _ c => c
  | .found _ _ c => c

/-- The serialized checked field of a wire message. -/
def WireMsg.checkedDigits {Cand : Type} : WireMsg Cand → List Nat
  | .progress _ d => d
  | .found _ _ d => d

/-- The derivation as used everywhere in the source: derive c = UUID.v5(c, c)
(main module line 15 and worker source line 23). -/
def derive {Cand Pub : Type} (uuidv5 : Cand → Cand → Pub) (c : Cand) : Pub :=
  uuidv5 c c

/-- Main module line 15: targetPublic is UUID.v5(targetPrivate, targetPrivate),
computed once at process start from the freshly generated targetPrivate. -/
def targetPublicOf {Cand Pub : Type} (uuidv5 : Cand → Cand → Pub)
    (targetPrivate : Cand) : Pub :=
  uuidv5 targetPrivate targetPrivate

/-- Result of one execution of the for-loop inside checkBatch, worker source
lines 21 to 31. -/
inductive BatchResult (Cand : Type) where
  | found (candidate : Cand) (checked : Nat)
  | completed (checked : Nat)
deriving DecidableEq

section WorkerModel

variable {Cand Pub : Type} [DecidableEq Pub]
variable (gen : Nat → Cand) (uuidv5 : Cand → Cand → Pub) (target : Pub)

/-- The for-loop of checkBatch, worker source lines 21 to 31: fuel is the
remaining iteration count (initially BATCH_SIZE), pos the position in the
random stream, checked the worker's cumulative counter. Each iteration draws
one candidate, derives its public value, increments checked, and returns
found as soon as the derived value equals the target. -/
def checkBatchFrom : Nat → Nat → Nat → BatchResult Cand
  | 0, _, checked => .completed checked
  | fuel + 1, pos, checked =>
    let candidate := gen pos
    if uuidv5 candidate candidate = target then
      .found candidate (checked + 1)
    else
      checkBatchFrom fuel (pos + 1) (checked + 1)

/-- The worker loop, checkBatch plus its setTimeout rescheduling, worker
source lines 20 to 41: n is the number of batch executions the runtime
dispatches before the worker is externally terminated. A batch ending in a
match posts one found message and returns without rescheduling; a completed
batch posts a progress message carrying the cumulative count and
reschedules. -/
def workerRun (wid : Nat) : Nat → Nat → Nat → List (WorkerMsg Cand)
  | 0, _, _ => []
  | n + 1, pos, checked =>
    match checkBatchFrom gen uuidv5 target BATCH_SIZE pos checked with
    | .found c ch => [.found wid c ch]
    | .completed ch => .progress wid ch :: workerRun wid n (pos + BATCH_SIZE) ch

/-- The worker loop together with an explicit stop-pending environment sp,
indexed by the completed-batch counter (the source's batchCount). The source
worker registers no stop handler, and its continuation at line 38 of the
worker source is an unconditional setTimeout, so sp is never consulted. -/
def workerRunEnv (sp : Nat → Bool) (wid : Nat) :
    Nat → Nat → Nat → Nat → List (WorkerMsg Cand)
  | 0, _, _, _ => []
  | n + 1, pos, checked, b =>
    match checkBatchFrom gen uuidv5 target BATCH_SIZE pos checked with
    | .found c ch => [.found wid c ch]
    | .completed ch =>
      .progress wid ch :: workerRunEnv sp wid n (pos + BATCH_SIZE) ch (b + 1)

/-- Modelled from the spec: the worker of spec section 4.2, which at each
yield point between batches checks the pending-stop flag and terminates
rather than scheduling another batch. This definition follows the spec's
words and exists only to be compared with the source-derived workerRunEnv;
the stop-message handling it describes is absent from the source. -/
def workerRunSpec (sp : Nat → Bool) (wid : Nat) :
    Nat → Nat → Nat → Nat → List (WorkerMsg Cand)
  | 0, _, _, _ => []
  | n + 1, pos, checked, b =>
    match checkBatchFrom gen uuidv5 target BATCH_SIZE pos checked with
    | .found c ch => [.found wid c ch]
    | .completed ch =>
      if sp (b + 1) then [.progress wid ch]
      else .progress wid ch :: workerRunSpec sp wid n (pos + BATCH_SIZE) ch (b + 1)

end WorkerModel

/-- Number of found messages in a worker trace. -/
def countFound {Cand : Type} : List (WorkerMsg Cand) → Nat
  | [] => 0
  | .found _ _ _ :: rest => countFound rest + 1
  | .progress _ _ :: rest => countFound rest

/-- One console output of the coordinator, reduced to the data it reports:
the FOUND IT block of the found handler (main module lines 89 to 92), the
stopping notice of the SIGINT handler (line 158), one overwritten progress
line of the interval callback (lines 118 to 129, by the total it displays),
and the final statistics block of stopAll (lines 141 to 150, by the total it
displays and whether the run had found the secret, which decides the
presence of the Not found line). -/
inductive OutputItem (Cand : Type) where
  | foundBanner (candidate : Cand) (checked : Nat)
  | stoppingNotice
  | progressLine (total : Nat)
  | summary (total : Nat) (found : Bool)
deriving DecidableEq

/-- Coordinator state, the mutable locals of runBenchmark in the main module
(lines 70 to 75) together with the runtime facts the claims quantify over:
intervalActive models whether the progress interval is still registered,
workersTerminated whether terminate() was called on the pool, exitCode the
argument of a performed process.exit, and output the console log so far. -/
structure CoordState (Cand : Type) where
  workerProgress : Nat → Nat
  running : Bool
  found : Bool
  intervalActive : Bool
  workersTerminated : Bool
  exitCode : Option Nat
  output : List (OutputItem Cand)

/-- An asynchronous entry point of the coordinator: a worker message
delivered to onmessage, one interval tick of the progress display, or the
SIGINT signal. -/
inductive Event (Cand : Type) where
  | msg (m : WireMsg Cand)
  | tick
  | sigint

/-- The full recomputed total, workerProgress.reduce((a, b) => a + b, 0n) of
main module lines 109 and 137, summing the table entries of the numWorkers
workers. -/
def totalChecked (numWorkers : Nat) (t : Nat → Nat) : Nat :=
  ((List.range numWorkers).map t).foldl (· + ·) 0

section Coordinator

variable {Cand : Type} (numWorkers : Nat)

/-- stopAll of main module lines 132 to 153: sets running to false, clears
the progress interval, terminates every worker, recomputes the total as a
full sum of the progress table, prints the final statistics block (with the
Not found line exactly when found is false), and exits the process with
code 0. -/
def stopAll (s : CoordState Cand) : CoordState Cand :=
  let s1 : CoordState Cand :=
    { s with running := false, intervalActive := false, workersTerminated := true }
  { s1 with
      output := s1.output ++ [.summary (totalChecked numWorkers s1.workerProgress) s1.found],
      exitCode := some 0 }

/-- One dispatch of the coordinator runtime. The outer exitCode guard models
process.exit: a handler of an exited process never runs. A progress message
stores BigInt(checked) at index workerId of the table (main module line 85);
a found message sets found, stops the run, prints the FOUND IT block, and
calls stopAll (lines 86 to 94); a tick, when the interval is registered and
running is still true (line 107), prints one progress line carrying the
freshly recomputed total (lines 109 to 129); SIGINT prints the stopping
notice and calls stopAll (lines 156 to 160). -/
def step (s : CoordState Cand) (e : Event Cand) : CoordState Cand :=
  if s.exitCode.isSome then s
  else
    match e with
    | .msg (.progress w ds) =>
      { s with
          workerProgress := fun j => if j = w then Nat.ofDigits 10 ds else s.workerProgress j }
    | .msg (.found _ c ds) =>
      stopAll numWorkers
        { s with
            found := true, running := false,
            output := s.output ++ [.foundBanner c (Nat.ofDigits 10 ds)] }
    | .tick =>
      if s.intervalActive && s.running then
        { s with
            output := s.output ++ [.progressLine (totalChecked numWorkers s.workerProgress)] }
      else s
    | .sigint =>
      stopAll numWorkers { s with output := s.output ++ [.stoppingNotice] }

/-- A run of the coordinator: dispatching a list of events in order. -/
def run (s : CoordState Cand) (evs : List (Event Cand)) : CoordState Cand :=
  evs.foldl (step numWorkers) s

/-- All states a run passes through, the initial one included. -/
def runStates (s : CoordState Cand) : List (Event Cand) → List (CoordState Cand)
  | [] => [s]
  | e :: evs => s :: runStates (step numWorkers s e) evs

end Coordinator

/-- The coordinator state right after runBenchmark initialises its locals,
main module lines 70 to 75: an all-zero progress table, running true, found
false, the interval registered, no worker terminated, no exit performed, and
(restricting output to the modelled items) nothing printed yet. -/
def initState (Cand : Type) : CoordState Cand :=
  { workerProgress := fun _ => 0
    running := true
    found := false
    intervalActive := true
    workersTerminated := false
    exitCode := none
    output := [] }

/-- Number of final statistics blocks in a console log. -/
def summaryCount {Cand : Type} (out : List (OutputItem Cand)) : Nat :=
  (out.filter fun o =>
    match o with
    | .summary _ _ => true
    | _ => false).length

/-- The totals reported to the console, in order: one per progress line and
one per final statistics block. -/
def reportedTotals {Cand : Type} (out : List (OutputItem Cand)) : List Nat :=
  out.filterMap fun o =>
    match o with
    | .progressLine t => some t
    | .summary t _ => some t
    | _ => none

/-- The decoded checked values of the progress messages of worker w inside an
event list, in order of delivery. -/
def progressValsOf {Cand : Type} (w : Nat) (evs : List (Event Cand)) : List Nat :=
  evs.filterMap fun e =>
    match e with
    | .msg (.progress w1 ds) => if w1 = w then some (Nat.ofDigits 10 ds) else none
    | _ => none

section WorkerLemmas

variable {Cand Pub : Type} [DecidableEq Pub]
variable (gen : Nat → Cand) (uuidv5 : Cand → Cand → Pub) (target : Pub)

lemma checkBatchFrom_completed (fuel : Nat) :
    ∀ (pos checked : Nat),
      (∀ i, i < fuel → uuidv5 (gen (pos + i)) (gen (pos + i)) ≠ target) →
      checkBatchFrom gen uuidv5 target fuel pos checked = .completed (checked + fuel) := by
  induction fuel with
  | zero => intro pos checked _; simp [checkBatchFrom]
  | succ f ih =>
    intro pos checked h
    have h0 : uuidv5 (gen pos) (gen pos) ≠ target := by
      have := h 0 (Nat.succ_pos f)
      simpa using this
    have hrest : ∀ i, i < f → uuidv5 (gen (pos + 1 + i)) (gen (pos + 1 + i)) ≠ target := by
      intro i hi
      have := h (i + 1) (by omega)
      have harith : pos + (i + 1) = pos + 1 + i := by omega
      simpa [harith] using this
    simp only [checkBatchFrom, h0, if_neg, ite_false]
    rw [ih (pos + 1) (checked + 1) hrest]
    have : checked + 1 + f = checked + (f + 1) := by omega
    rw [this]

lemma checkBatchFrom_found_eq (fuel : Nat) :
    ∀ (pos checked : Nat) (c : Cand) (ch : Nat),
      checkBatchFrom gen uuidv5 target fuel pos checked = .found c ch →
      uuidv5 c c = target := by
  induction fuel with
  | zero => intro pos checked c ch h; simp [checkBatchFrom] at h
  | succ f ih =>
    intro pos checked c ch h
    by_cases h0 : uuidv5 (gen pos) (gen pos) = target
    · simp only [checkBatchFrom, h0, if_pos, ite_true] at h
      obtain ⟨rfl, rfl⟩ := by simpa using h
      exact h0
    · simp only [checkBatchFrom, h0, if_neg, ite_false] at h
      exact ih (pos + 1) (checked + 1) c ch h

lemma checkBatchFrom_found_at (j : Nat) :
    ∀ (fuel pos checked : Nat), j < fuel →
      (∀ i, i < j → uuidv5 (gen (pos + i)) (gen (pos + i)) ≠ target) →
      uuidv5 (gen (pos + j)) (gen (pos + j)) = target →
      checkBatchFrom gen uuidv5 target fuel pos checked =
        .found (gen (pos + j)) (checked + j + 1) := by
  induction j with
  | zero =>
    intro fuel pos checked hlt _ hmatch
    cases fuel with
    | zero => omega
    | succ f =>
      have hm : uuidv5 (gen pos) (gen pos) = target := by simpa using hmatch
      simp [checkBatchFrom, hm]
  | succ j ih =>
    intro fuel pos checked hlt hpre hmatch
    cases fuel with
    | zero => omega
    | succ f =>
      have h0 : uuidv5 (gen pos) (gen pos) ≠ target := by
        have := hpre 0 (Nat.succ_pos j)
        simpa using this
      simp only [checkBatchFrom, h0, if_neg, ite_false]
      have hpre1 : ∀ i, i < j → uuidv5 (gen (pos + 1 + i)) (gen (pos + 1 + i)) ≠ target := by
        intro i hi
        have := hpre (i + 1) (by omega)
        have harith : pos + (i + 1) = pos + 1 + i := by omega
        simpa [harith] using this
      have hm1 : uuidv5 (gen (pos + 1 + j)) (gen (pos + 1 + j)) = target := by
        have harith : pos + (j + 1) = pos + 1 + j := by omega
        simpa [harith] using hmatch
      rw [ih f (pos + 1) (checked + 1) (by omega) hpre1 hm1]
      have h1 : pos + 1 + j = pos + (j + 1) := by omega
      have h2 : checked + 1 + j + 1 = checked + (j + 1) + 1 := by omega
      rw [h1, h2]

lemma workerRun_found_mem (wid : Nat) (n : Nat) :
    ∀ (pos checked : Nat) (w1 : Nat) (c : Cand) (ch : Nat),
      WorkerMsg.found w1 c ch ∈ workerRun gen uuidv5 target wid n pos checked →
      uuidv5 c c = target := by
  induction n with
  | zero => intro pos checked w1 c ch h; simp [workerRun] at h
  | succ n ih =>
    intro pos checked w1 c ch h
    cases hb : checkBatchFrom gen uuidv5 target BATCH_SIZE pos checked with
    | found c0 ch0 =>
      simp only [workerRun, hb, List.mem_singleton, WorkerMsg.found.injEq] at h
      rcases h with ⟨_, rfl, _⟩
      exact checkBatchFrom_found_eq gen uuidv5 target BATCH_SIZE pos checked _ _ hb
    | completed ch0 =>
      simp only [workerRun, hb, List.mem_cons] at h
      rcases h with h | h
      · exact absurd h (by simp)
      · exact ih (pos + BATCH_SIZE) ch0 w1 c ch h

lemma workerRun_found_last (wid : Nat) (n : Nat) :
    ∀ (pos checked : Nat) (l1 l2 : List (WorkerMsg Cand)) (w1 : Nat) (c : Cand) (ch : Nat),
      workerRun gen uuidv5 target wid n pos checked = l1 ++ .found w1 c ch :: l2 →
      l2 = [] := by
  induction n with
  | zero =>
    intro pos checked l1 l2 w1 c ch h
    rw [workerRun] at h
    exact absurd h.symm (List.append_ne_nil_of_right_ne_nil l1 (List.cons_ne_nil _ _))
  | succ n ih =>
    intro pos checked l1 l2 w1 c ch h
    rcases hb : checkBatchFrom gen uuidv5 target BATCH_SIZE pos checked with c0 | ch0
    case found =>
      rw [workerRun, hb] at h
      cases l1 with
      | nil =>
        simp only [List.nil_append, List.cons.injEq] at h
        exact h.2.symm
      | cons a l1 =>
        simp only [List.cons_append, List.cons.injEq] at h
        exact absurd h.2.symm (List.append_ne_nil_of_right_ne_nil l1 (List.cons_ne_nil _ _))
    case completed =>
      rw [workerRun, hb] at h
      cases l1 with
      | nil =>
        simp only [List.nil_append, List.cons.injEq] at h
        exact absurd h.1 (by simp)
      | cons a l1 =>
        simp only [List.cons_append, List.cons.injEq] at h
        exact ih (pos + BATCH_SIZE) ch0 l1 l2 w1 c ch h.2

lemma countFound_workerRun_le_one (wid : Nat) (n : Nat) :
    ∀ (pos checked : Nat), countFound (workerRun gen uuidv5 target wid n pos checked) ≤ 1 := by
  induction n with
  | zero => intro pos checked; simp [workerRun, countFound]
  | succ n ih =>
    intro pos checked
    rcases hb : checkBatchFrom gen uuidv5 target BATCH_SIZE pos checked with c0 | ch0
    case found => rw [workerRun, hb]; simp [countFound]
    case completed => rw [workerRun, hb]; simpa [countFound] using ih (pos + BATCH_SIZE) ch0

lemma workerRun_no_match (wid : Nat) (k : Nat) :
    ∀ (pos checked : Nat),
      (∀ i, i < k * BATCH_SIZE → uuidv5 (gen (pos + i)) (gen (pos + i)) ≠ target) →
      workerRun gen uuidv5 target wid k pos checked =
        (List.range k).map fun j => .progress wid (checked + (j + 1) * BATCH_SIZE) := by
  induction k with
  | zero => intro pos checked _; simp [workerRun]
  | succ k ih =>
    intro pos checked h
    have hbatch : ∀ i, i < BATCH_SIZE → uuidv5 (gen (pos + i)) (gen (pos + i)) ≠ target := by
      intro i hi
      exact h i (Nat.lt_of_lt_of_le hi (Nat.le_mul_of_pos_left BATCH_SIZE (Nat.succ_pos k)))
    have hc := checkBatchFrom_completed gen uuidv5 target BATCH_SIZE pos checked hbatch
    have hrest : ∀ i, i < k * BATCH_SIZE →
        uuidv5 (gen (pos + BATCH_SIZE + i)) (gen (pos + BATCH_SIZE + i)) ≠ target := by
      intro i hi
      have hmul : (k + 1) * BATCH_SIZE = BATCH_SIZE + k * BATCH_SIZE := by ring
      have := h (BATCH_SIZE + i) (by omega)
      have harith : pos + (BATCH_SIZE + i) = pos + BATCH_SIZE + i := by omega
      simpa [harith] using this
    simp only [workerRun, hc]
    rw [ih (pos + BATCH_SIZE) (checked + BATCH_SIZE) hrest]
    rw [List.range_succ_eq_map, List.map_cons, List.map_map]
    rw [List.cons.injEq]
    refine ⟨by simp, ?_⟩
    apply List.map_congr_left
    intro j hj
    have harith : checked + BATCH_SIZE + (j + 1) * BATCH_SIZE
        = checked + (j + 1 + 1) * BATCH_SIZE := by ring
    simp [Nat.succ_eq_add_one, harith, Function.comp]

lemma workerRunEnv_length_no_match (sp : Nat → Bool) (wid : Nat)
    (hm : ∀ p, uuidv5 (gen p) (gen p) ≠ target) (n : Nat) :
    ∀ (pos checked b : Nat),
      (workerRunEnv gen uuidv5 target sp wid n pos checked b).length = n := by
  induction n with
  | zero => intro pos checked b; simp [workerRunEnv]
  | succ n ih =>
    intro pos checked b
    have hc := checkBatchFrom_completed gen uuidv5 target BATCH_SIZE pos checked
      (fun i _ => hm (pos + i))
    simp only [workerRunEnv, hc, List.length_cons, ih]

lemma workerRunSpec_length_stop (sp : Nat → Bool) (wid : Nat)
    (hm : ∀ p, uuidv5 (gen p) (gen p) ≠ target) (hsp : ∀ b, sp b = true) (n : Nat) :
    ∀ (pos checked b : Nat),
      (workerRunSpec gen uuidv5 target sp wid (n + 1) pos checked b).length = 1 := by
  intro pos checked b
  have hc := checkBatchFrom_completed gen uuidv5 target BATCH_SIZE pos checked
    (fun i _ => hm (pos + i))
  simp only [workerRunSpec, hc, hsp (b + 1), if_true, List.length_singleton]

lemma workerRunEnv_eq_workerRun (sp : Nat → Bool) (wid : Nat) (n : Nat) :
    ∀ (pos checked b : Nat),
      workerRunEnv gen uuidv5 target sp wid n pos checked b =
        workerRun gen uuidv5 target wid n pos checked := by
  induction n with
  | zero => intro pos checked b; simp [workerRunEnv, workerRun]
  | succ n ih =>
    intro pos checked b
    cases hb : checkBatchFrom gen uuidv5 target BATCH_SIZE pos checked with
    | found c0 ch0 => simp only [workerRunEnv, workerRun, hb]
    | completed ch0 => simp only [workerRunEnv, workerRun, hb]; rw [ih]

end WorkerLemmas

section CoordinatorLemmas

variable {Cand : Type} (numWorkers : Nat)

lemma step_exited (s : CoordState Cand) (e : Event Cand) (h : s.exitCode.isSome) :
    step numWorkers s e = s := by
  simp [step, h]

lemma run_exited (evs : List (Event Cand)) :
    ∀ s : CoordState Cand, s.exitCode.isSome → run numWorkers s evs = s := by
  induction evs with
  | nil => intro s _; rfl
  | cons e evs ih =>
    intro s h
    show run numWorkers (step numWorkers s e) evs = s
    rw [step_exited numWorkers s e h]
    exact ih s h

lemma summaryCount_append (a b : List (OutputItem Cand)) :
    summaryCount (a ++ b) = summaryCount a + summaryCount b := by
  simp [summaryCount, List.filter_append]

lemma stopAll_output (s : CoordState Cand) :
    (stopAll numWorkers s).output =
      s.output ++ [OutputItem.summary (totalChecked numWorkers s.workerProgress) s.found] :=
  rfl

lemma foldl_add_map_le (l : List Nat) :
    ∀ (f g : Nat → Nat) (a b : Nat), a ≤ b → (∀ i ∈ l, f i ≤ g i) →
      (l.map f).foldl (· + ·) a ≤ (l.map g).foldl (· + ·) b := by
  induction l with
  | nil => intro f g a b hab _; simpa using hab
  | cons x l ih =>
    intro f g a b hab h
    simp only [List.map_cons, List.foldl_cons]
    exact ih f g (a + f x) (b + g x)
      (Nat.add_le_add hab (h x (List.mem_cons_self x l)))
      (fun i hi => h i (List.mem_cons_of_mem x hi))

lemma totalChecked_mono (t t1 : Nat → Nat) (h : ∀ j, t j ≤ t1 j) :
    totalChecked numWorkers t ≤ totalChecked numWorkers t1 :=
  foldl_add_map_le (List.range numWorkers) t t1 0 0 le_rfl fun i _ => h i

lemma progressValsOf_cons_progress (w w1 : Nat) (ds : List Nat) (evs : List (Event Cand)) :
    progressValsOf w (Event.msg (WireMsg.progress w1 ds) :: evs) =
      if w1 = w then Nat.ofDigits 10 ds :: progressValsOf w evs
      else progressValsOf w evs := by
  by_cases h : w1 = w <;> simp [progressValsOf, h]

lemma progressValsOf_cons_found (w w1 : Nat) (c : Cand) (ds : List Nat)
    (evs : List (Event Cand)) :
    progressValsOf w (Event.msg (WireMsg.found w1 c ds) :: evs) = progressValsOf w evs := by
  simp [progressValsOf]

lemma progressValsOf_cons_tick (w : Nat) (evs : List (Event Cand)) :
    progressValsOf w (Event.tick :: evs) = progressValsOf w evs := by
  simp [progressValsOf]

lemma progressValsOf_cons_sigint (w : Nat) (evs : List (Event Cand)) :
    progressValsOf w (Event.sigint :: evs) = progressValsOf w evs := by
  simp [progressValsOf]

lemma pairwise_invariant_unchanged (t : Nat → Nat) (e : Event Cand) (evs : List (Event Cand))
    (h : ∀ w, List.Pairwise (· ≤ ·) (t w :: progressValsOf w (e :: evs))) :
    ∀ w, List.Pairwise (· ≤ ·) (t w :: progressValsOf w evs) := by
  intro w
  have hw := h w
  cases e with
  | msg m =>
    cases m with
    | progress w1 ds =>
      rw [progressValsOf_cons_progress] at hw
      by_cases hww : w1 = w
      · rw [if_pos hww] at hw
        exact hw.sublist (List.Sublist.cons₂ _ (List.sublist_cons_self _ _))
      · rw [if_neg hww] at hw; exact hw
    | found w1 c ds => rw [progressValsOf_cons_found] at hw; exact hw
  | tick => rw [progressValsOf_cons_tick] at hw; exact hw
  | sigint => rw [progressValsOf_cons_sigint] at hw; exact hw

lemma step_table (s : CoordState Cand) (e : Event Cand) :
    (step numWorkers s e).workerProgress = s.workerProgress ∨
    ∃ w1 ds, s.exitCode.isSome = false ∧ e = Event.msg (WireMsg.progress w1 ds) ∧
      (step numWorkers s e).workerProgress =
        fun j => if j = w1 then Nat.ofDigits 10 ds else s.workerProgress j := by
  cases hex : s.exitCode.isSome with
  | true => left; rw [step_exited numWorkers s e hex]
  | false =>
    cases e with
    | msg m =>
      cases m with
      | progress w1 ds => right; exact ⟨w1, ds, rfl, rfl, by simp [step, hex]⟩
      | found w1 c ds => left; simp [step, stopAll, hex]
    | tick =>
      left
      simp only [step, hex, Bool.false_eq_true, if_false]
      split <;> rfl
    | sigint => left; simp [step, stopAll, hex]

lemma step_pairwise_mono (s : CoordState Cand) (e : Event Cand) (evs : List (Event Cand))
    (h : ∀ w, List.Pairwise (· ≤ ·) (s.workerProgress w :: progressValsOf w (e :: evs))) :
    (∀ w, List.Pairwise (· ≤ ·)
        ((step numWorkers s e).workerProgress w :: progressValsOf w evs)) ∧
    totalChecked numWorkers s.workerProgress ≤
      totalChecked numWorkers (step numWorkers s e).workerProgress := by
  rcases step_table numWorkers s e with hT | ⟨w1, ds, hex, rfl, hT⟩
  · rw [hT]
    exact ⟨pairwise_invariant_unchanged s.workerProgress e evs h, le_rfl⟩
  · have hw1 := h w1
    rw [progressValsOf_cons_progress, if_pos rfl] at hw1
    constructor
    · intro w
      have hw := h w
      rw [progressValsOf_cons_progress] at hw
      rw [hT]
      by_cases hww : w = w1
      · subst hww
        rw [if_pos rfl] at hw
        simp only [if_pos rfl]
        exact hw.of_cons
      · rw [if_neg fun hcon => hww hcon.symm] at hw
        simp only [if_neg hww]
        exact hw
    · rw [hT]
      apply totalChecked_mono
      intro j
      by_cases hj : j = w1
      · subst hj
        simp only [if_pos rfl]
        exact (List.pairwise_cons.mp hw1).1 _ (List.mem_cons_self _ _)
      · simp only [if_neg hj]
        exact le_rfl

lemma runStates_head (evs : List (Event Cand)) (s : CoordState Cand) :
    (runStates numWorkers s evs).head? = some s := by
  cases evs <;> rfl

lemma sum_chain_aux (evs : List (Event Cand)) :
    ∀ s : CoordState Cand,
      (∀ w, List.Pairwise (· ≤ ·) (s.workerProgress w :: progressValsOf w evs)) →
      List.Chain' (· ≤ ·)
        ((runStates numWorkers s evs).map fun t => totalChecked numWorkers t.workerProgress) := by
  induction evs with
  | nil => intro s _; exact List.chain'_singleton _
  | cons e evs ih =>
    intro s h
    have hstep := step_pairwise_mono numWorkers s e evs h
    have hchain := ih (step numWorkers s e) hstep.1
    show List.Chain' (· ≤ ·) (List.map _ (s :: runStates numWorkers (step numWorkers s e) evs))
    rw [List.map_cons, List.chain'_cons']
    refine ⟨?_, hchain⟩
    intro y hy
    rw [List.head?_map, runStates_head] at hy
    simp only [Option.map_some', Option.mem_def, Option.some.injEq] at hy
    subst hy
    exact hstep.2

lemma reportedTotals_append (a b : List (OutputItem Cand)) :
    reportedTotals (a ++ b) = reportedTotals a ++ reportedTotals b := by
  simp [reportedTotals, List.filterMap_append]

lemma reportedTotals_step (s : CoordState Cand) (e : Event Cand) :
    reportedTotals (step numWorkers s e).output = reportedTotals s.output ∨
    reportedTotals (step numWorkers s e).output =
      reportedTotals s.output ++ [totalChecked numWorkers (step numWorkers s e).workerProgress] := by
  cases hex : s.exitCode.isSome with
  | true => left; rw [step_exited numWorkers s e hex]
  | false =>
    cases e with
    | msg m =>
      cases m with
      | progress w1 ds => left; simp [step, hex]
      | found w1 c ds =>
        right
        simp [step, stopAll, hex, reportedTotals_append, reportedTotals, List.filterMap_cons]
    | tick =>
      by_cases hact : s.intervalActive && s.running
      · right
        simp [step, hex, hact, reportedTotals_append, reportedTotals, List.filterMap_cons]
      · left
        simp [step, hex, hact]
    | sigint =>
      right
      simp [step, stopAll, hex, reportedTotals_append, reportedTotals, List.filterMap_cons]

end CoordinatorLemmas

/-- Claim C1: the target pair is generated once with targetPublic equal to
derive targetPrivate, where derive is the deterministic map sending c to
UUIDv5(c, c); every worker applies this same derivation to each candidate, so
the candidate carried by any found message satisfies
derive candidate = targetPublic. -/
theorem target_derivation_consistent {Cand Pub : Type} [DecidableEq Pub]
    (gen : Nat → Cand) (uuidv5 : Cand → Cand → Pub) (targetPrivate : Cand) (wid : Nat) :
    targetPublicOf uuidv5 targetPrivate = derive uuidv5 targetPrivate ∧
    ∀ (n pos checked w1 : Nat) (c : Cand) (ch : Nat),
      WorkerMsg.found w1 c ch ∈
        workerRun gen uuidv5 (targetPublicOf uuidv5 targetPrivate) wid n pos checked →
      derive uuidv5 c = targetPublicOf uuidv5 targetPrivate := by
  refine ⟨rfl, ?_⟩
  intro n pos checked w1 c ch hmem
  exact workerRun_found_mem gen uuidv5 _ wid n pos checked w1 c ch hmem

/-- Witness for claim C1 at a concrete run in which the very first candidate
is the secret itself, so the first batch immediately emits found. -/
theorem target_derivation_consistent_witness :
    (WorkerMsg.found 0 (0 : Nat) 1 ∈
      workerRun (fun _ => (0 : Nat)) (fun c _ => c)
        (targetPublicOf (fun c _ => c) 0) 0 1 0 0) ∧
    derive (fun c _ => (c : Nat)) 0 = targetPublicOf (fun c _ => c) 0 :=
  ⟨by decide,
   (target_derivation_consistent (fun _ => (0 : Nat)) (fun c _ => c) 0 0).2
     1 0 0 0 0 1 (by decide)⟩

/-- Claim C2: in any worker run a found message is always the final message,
so no progress message ever follows a found; at most one found message is
emitted per run; and a match at offset j inside a batch returns found at once
with exactly j + 1 more candidates checked, without completing the remainder
of the batch. -/
theorem found_message_terminal {Cand Pub : Type} [DecidableEq Pub]
    (gen : Nat → Cand) (uuidv5 : Cand → Cand → Pub) (target : Pub) (wid : Nat) :
    (∀ (n pos checked : Nat) (l1 l2 : List (WorkerMsg Cand)) (w1 : Nat) (c : Cand) (ch : Nat),
        workerRun gen uuidv5 target wid n pos checked = l1 ++ WorkerMsg.found w1 c ch :: l2 →
        l2 = []) ∧
    (∀ n pos checked : Nat,
        countFound (workerRun gen uuidv5 target wid n pos checked) ≤ 1) ∧
    (∀ j pos checked : Nat, j < BATCH_SIZE →
        (∀ i, i < j → uuidv5 (gen (pos + i)) (gen (pos + i)) ≠ target) →
        uuidv5 (gen (pos + j)) (gen (pos + j)) = target →
        checkBatchFrom gen uuidv5 target BATCH_SIZE pos checked =
          BatchResult.found (gen (pos + j)) (checked + j + 1)) := by
  refine ⟨?_, ?_, ?_⟩
  · intro n pos checked l1 l2 w1 c ch hEq
    exact workerRun_found_last gen uuidv5 target wid n pos checked l1 l2 w1 c ch hEq
  · intro n pos checked
    exact countFound_workerRun_le_one gen uuidv5 target wid n pos checked
  · intro j pos checked hj hpre hmatch
    exact checkBatchFrom_found_at gen uuidv5 target j BATCH_SIZE pos checked hj hpre hmatch

/-- Witness for claim C2: a match on the first candidate of a batch stops the
batch at one check. -/
theorem found_message_terminal_witness :
    (0 < BATCH_SIZE ∧ (0 : Nat) = 0) ∧
    checkBatchFrom (fun _ => (0 : Nat)) (fun c _ => c) 0 BATCH_SIZE 0 0 =
      BatchResult.found 0 1 :=
  ⟨⟨by decide, rfl⟩,
   (found_message_terminal (fun _ => (0 : Nat)) (fun c _ => c) 0 0).2.2 0 0 0 (by decide)
     (fun i hi => absurd hi (Nat.not_lt_zero i)) rfl⟩

/-- Claim C7 counterexample: with a stop pending at every yield point and no
match anywhere, a worker whose runtime dispatches two batches still emits two
progress messages, whereas the worker the claim describes, which checks the
pending stop at the yield point, would have stopped after the first batch.
The two traces differ, so the source worker does not check a pending stop at
its yield points. -/
theorem worker_stop_check_counterexample :
    workerRunEnv (fun _ => (1 : Nat)) (fun (c : Nat) (_ : Nat) => c) 0
        (fun _ => true) 0 2 0 0 0 ≠
      workerRunSpec (fun _ => (1 : Nat)) (fun (c : Nat) (_ : Nat) => c) 0
        (fun _ => true) 0 2 0 0 0 := by
  have h2 : (workerRunEnv (fun _ => (1 : Nat)) (fun (c : Nat) (_ : Nat) => c) 0
      (fun _ => true) 0 2 0 0 0).length = 2 :=
    workerRunEnv_length_no_match (fun _ => (1 : Nat)) (fun (c : Nat) (_ : Nat) => c) 0
      (fun _ => true) 0 (fun _ => one_ne_zero) 2 0 0 0
  have h1 : (workerRunSpec (fun _ => (1 : Nat)) (fun (c : Nat) (_ : Nat) => c) 0
      (fun _ => true) 0 2 0 0 0).length = 1 :=
    workerRunSpec_length_stop (fun _ => (1 : Nat)) (fun (c : Nat) (_ : Nat) => c) 0
      (fun _ => true) 0 (fun _ => one_ne_zero) (fun _ => rfl) 1 0 0 0
  intro hcontra
  rw [hcontra, h1] at h2
  exact absurd h2 (by decide)

/-- Claim C7 (amended): the worker never receives or checks a stop signal:
its emitted trace is independent of any pending-stop environment, because the
continuation after a completed batch is an unconditional reschedule; workers
are stopped only externally, by stopAll terminating every worker of the
pool. -/
theorem worker_stop_unobserved {Cand Pub : Type} [DecidableEq Pub]
    (gen : Nat → Cand) (uuidv5 : Cand → Cand → Pub) (target : Pub) (numWorkers : Nat) :
    (∀ (sp : Nat → Bool) (wid n pos checked b : Nat),
        workerRunEnv gen uuidv5 target sp wid n pos checked b =
          workerRun gen uuidv5 target wid n pos checked) ∧
    (∀ s : CoordState Cand, s.exitCode = none →
        (step numWorkers s Event.sigint).workersTerminated = true ∧
        (step numWorkers s Event.sigint).running = false) := by
  constructor
  · intro sp wid n pos checked b
    exact workerRunEnv_eq_workerRun gen uuidv5 target sp wid n pos checked b
  · intro s hs
    have hex : s.exitCode.isSome = false := by simp [hs]
    constructor <;> simp [step, stopAll, hex]

/-- Witness for the amended claim C7 at concrete inputs. -/
theorem worker_stop_unobserved_witness :
    (initState Nat).exitCode = none ∧
    workerRunEnv (fun _ => (1 : Nat)) (fun (c : Nat) (_ : Nat) => c) 0
        (fun _ => true) 0 0 0 0 0 =
      workerRun (fun _ => (1 : Nat)) (fun (c : Nat) (_ : Nat) => c) 0 0 0 0 0 ∧
    (step 8 (initState Nat) Event.sigint).workersTerminated = true :=
  ⟨rfl,
   (@worker_stop_unobserved Nat Nat _ (fun _ => (1 : Nat)) (fun (c : Nat) (_ : Nat) => c)
       0 8).1 (fun _ => true) 0 0 0 0 0,
   ((@worker_stop_unobserved Nat Nat _ (fun _ => (1 : Nat)) (fun (c : Nat) (_ : Nat) => c)
       0 8).2 (initState Nat) rfl).1⟩

/-- Claim C8: the checked counter is kept in unbounded precision (Nat, the
model of bigint) and is serialized as decimal digits in both progress and
found messages; decoding at the coordinator recovers the worker's exact
count, and the progress handler stores that exact value in the table, so no
precision is lost across the message boundary. -/
theorem checked_serialization_exact {Cand : Type} (numWorkers : Nat) :
    (∀ m : WorkerMsg Cand, Nat.ofDigits 10 (toWire m).checkedDigits = m.checkedVal) ∧
    (∀ (s : CoordState Cand) (w c : Nat), s.exitCode = none →
        (step numWorkers s
            (Event.msg (WireMsg.progress w (Nat.digits 10 c)))).workerProgress w = c) := by
  constructor
  · intro m
    cases m <;>
      simp [toWire, WorkerMsg.checkedVal, WireMsg.checkedDigits, Nat.ofDigits_digits]
  · intro s w c hs
    have hex : s.exitCode.isSome = false := by simp [hs]
    simp [step, hex, Nat.ofDigits_digits]

/-- Witness for claim C8 with a counter far beyond 53-bit float precision. -/
theorem checked_serialization_exact_witness :
    (initState Nat).exitCode = none ∧
    Nat.ofDigits 10
        (toWire (WorkerMsg.progress 0 123456789123456789123456789 :
          WorkerMsg Nat)).checkedDigits = 123456789123456789123456789 ∧
    (step 8 (initState Nat)
        (Event.msg (WireMsg.progress 0
          (Nat.digits 10 123456789123456789123456789)))).workerProgress 0 =
      123456789123456789123456789 :=
  ⟨rfl,
   (checked_serialization_exact 8).1 _,
   (checked_serialization_exact 8).2 (initState Nat) 0 _ rfl⟩

/-- Claim C9: the batch size is the fixed 100000, the counter grows by one
per candidate, and when the first k batches complete without a match the
worker emits exactly k progress messages carrying the cumulative counts,
the j-th reporting (j + 1) * 100000; in particular after k completed batches
the latest reported value is k * 100000. -/
theorem batch_progress_counts {Cand Pub : Type} [DecidableEq Pub]
    (gen : Nat → Cand) (uuidv5 : Cand → Cand → Pub) (target : Pub) (wid : Nat) :
    BATCH_SIZE = 100000 ∧
    ∀ k : Nat, (∀ i, i < k * BATCH_SIZE → uuidv5 (gen i) (gen i) ≠ target) →
      workerRun gen uuidv5 target wid k 0 0 =
        (List.range k).map fun j => WorkerMsg.progress wid ((j + 1) * BATCH_SIZE) := by
  refine ⟨rfl, ?_⟩
  intro k h
  have h0 : ∀ i, i < k * BATCH_SIZE → uuidv5 (gen (0 + i)) (gen (0 + i)) ≠ target := by
    intro i hi
    simpa using h i hi
  have hrun := workerRun_no_match gen uuidv5 target wid k 0 0 h0
  simpa using hrun

/-- Witness for claim C9: one matchless batch reports exactly 100000. -/
theorem batch_progress_counts_witness :
    (∀ i : Nat, i < 1 * BATCH_SIZE → (1 : Nat) ≠ 0) ∧
    workerRun (fun _ => (1 : Nat)) (fun (c : Nat) (_ : Nat) => c) 0 0 1 0 0 =
      (List.range 1).map fun j => WorkerMsg.progress 0 ((j + 1) * BATCH_SIZE) :=
  ⟨fun _ _ => one_ne_zero,
   (batch_progress_counts (fun _ => (1 : Nat)) (fun c _ => c) 0 0).2 1
     (fun _ _ => one_ne_zero)⟩

/-- Claim C3: two stop triggers in immediate succession, a SIGINT right after
another SIGINT or right after a found message, yield exactly one final
statistics block over the whole remaining run, because the first stopAll
exits the process and every later event is dispatched to a dead process. -/
theorem stopAll_idempotent_single_summary {Cand : Type} (numWorkers : Nat)
    (s : CoordState Cand) (w1 : Nat) (c : Cand) (ds : List Nat) (evs : List (Event Cand))
    (hlive : s.exitCode = none) (hnone : summaryCount s.output = 0) :
    summaryCount (run numWorkers
        (step numWorkers (step numWorkers s Event.sigint) Event.sigint) evs).output = 1 ∧
    summaryCount (run numWorkers
        (step numWorkers (step numWorkers s (Event.msg (WireMsg.found w1 c ds)))
          Event.sigint) evs).output = 1 := by
  have hex : s.exitCode.isSome = false := by simp [hlive]
  constructor
  · have h1 : step numWorkers s Event.sigint =
        stopAll numWorkers { s with output := s.output ++ [OutputItem.stoppingNotice] } := by
      simp [step, hex]
    have hsome : (step numWorkers s Event.sigint).exitCode.isSome := by rw [h1]; rfl
    rw [step_exited numWorkers _ Event.sigint hsome, run_exited numWorkers evs _ hsome, h1,
      stopAll_output, summaryCount_append, summaryCount_append, hnone]
    rfl
  · have h1 : step numWorkers s (Event.msg (WireMsg.found w1 c ds)) =
        stopAll numWorkers
          { s with
            found := true, running := false,
            output := s.output ++ [OutputItem.foundBanner c (Nat.ofDigits 10 ds)] } := by
      simp [step, hex]
    have hsome : (step numWorkers s (Event.msg (WireMsg.found w1 c ds))).exitCode.isSome := by
      rw [h1]; rfl
    rw [step_exited numWorkers _ Event.sigint hsome, run_exited numWorkers evs _ hsome, h1,
      stopAll_output, summaryCount_append, summaryCount_append, hnone]
    rfl

/-- Witness for claim C3 from the fresh initial state, with a further tick
after the double stop. -/
theorem stopAll_idempotent_single_summary_witness :
    ((initState Nat).exitCode = none ∧ summaryCount (initState Nat).output = 0) ∧
    summaryCount (run 8 (step 8 (step 8 (initState Nat) Event.sigint) Event.sigint)
        [Event.tick]).output = 1 :=
  ⟨⟨rfl, rfl⟩,
   (stopAll_idempotent_single_summary 8 (initState Nat) 0 0 [7] [Event.tick] rfl rfl).1⟩

/-- Claim C4: after stopAll completes, the coordinator processes no further
progress or found message, tick, or signal: dispatching any event, or any
whole event list, on a state produced by stopAll returns that state
unchanged, progress table, found flag and emitted output included, because
stopAll ends in process.exit. -/
theorem no_processing_after_stopAll {Cand : Type} (numWorkers : Nat)
    (s : CoordState Cand) (e : Event Cand) (evs : List (Event Cand)) :
    step numWorkers (stopAll numWorkers s) e = stopAll numWorkers s ∧
    run numWorkers (stopAll numWorkers s) evs = stopAll numWorkers s := by
  have hsome : (stopAll numWorkers s).exitCode.isSome := rfl
  exact ⟨step_exited numWorkers _ e hsome, run_exited numWorkers evs _ hsome⟩

/-- Claim C5: over any run whose per-worker progress reports arrive in
non-decreasing order, the recomputed table total is non-decreasing across all
coordinator steps; and every total any step reports, on a progress line or in
a final summary, is the full recomputed sum of the per-worker entries at that
step, never an incremental patch. -/
theorem progress_sum_monotone_recomputed {Cand : Type} (numWorkers : Nat)
    (s : CoordState Cand) (evs : List (Event Cand))
    (h : ∀ w, List.Chain' (· ≤ ·) (s.workerProgress w :: progressValsOf w evs)) :
    List.Chain' (· ≤ ·)
      ((runStates numWorkers s evs).map fun t => totalChecked numWorkers t.workerProgress) ∧
    ∀ (t : CoordState Cand) (e : Event Cand),
      reportedTotals (step numWorkers t e).output = reportedTotals t.output ∨
      reportedTotals (step numWorkers t e).output =
        reportedTotals t.output ++
          [totalChecked numWorkers (step numWorkers t e).workerProgress] := by
  constructor
  · apply sum_chain_aux
    intro w
    exact List.chain'_iff_pairwise.mp (h w)
  · intro t e
    exact reportedTotals_step numWorkers t e

/-- Witness for claim C5 on a run consisting of one progress message. -/
theorem progress_sum_monotone_recomputed_witness :
    (∀ w, List.Chain' (· ≤ ·)
        ((initState Nat).workerProgress w ::
          progressValsOf w ([Event.msg (WireMsg.progress 0 [5])] : List (Event Nat)))) ∧
    List.Chain' (· ≤ ·)
      ((runStates 8 (initState Nat) [Event.msg (WireMsg.progress 0 [5])]).map
        fun t => totalChecked 8 t.workerProgress) := by
  have hyp : ∀ w, List.Chain' (· ≤ ·)
      ((initState Nat).workerProgress w ::
        progressValsOf w ([Event.msg (WireMsg.progress 0 [5])] : List (Event Nat))) := by
    intro w
    by_cases hw : (0 : Nat) = w
    · subst hw
      simp [progressValsOf, initState, List.chain'_cons, List.chain'_singleton]
    · simp [progressValsOf, initState, hw, List.chain'_singleton]
  exact ⟨hyp, (progress_sum_monotone_recomputed 8 (initState Nat) _ hyp).1⟩

/-- Claim C6: an external interrupt goes through the same stopAll path as a
found message but leaves the found flag untouched, so when nothing was found
the final summary reports not found; both paths exit the process with
code 0. -/
theorem interrupt_clean_shutdown {Cand : Type} (numWorkers : Nat)
    (s : CoordState Cand) (w1 : Nat) (c : Cand) (ds : List Nat)
    (hlive : s.exitCode = none) :
    (step numWorkers s Event.sigint).exitCode = some 0 ∧
    (step numWorkers s Event.sigint).found = s.found ∧
    (step numWorkers s Event.sigint).output = s.output ++
      [OutputItem.stoppingNotice,
       OutputItem.summary (totalChecked numWorkers s.workerProgress) s.found] ∧
    (step numWorkers s (Event.msg (WireMsg.found w1 c ds))).exitCode = some 0 ∧
    (step numWorkers s (Event.msg (WireMsg.found w1 c ds))).found = true := by
  have hex : s.exitCode.isSome = false := by simp [hlive]
  refine ⟨?_, ?_, ?_, ?_, ?_⟩ <;> simp [step, stopAll, hex]

/-- Witness for claim C6 from the fresh initial state, in which found is
still false. -/
theorem interrupt_clean_shutdown_witness :
    (initState Nat).exitCode = none ∧
    (step 8 (initState Nat) Event.sigint).exitCode = some 0 ∧
    (step 8 (initState Nat) Event.sigint).found = false :=
  ⟨rfl,
   (interrupt_clean_shutdown 8 (initState Nat) 0 0 [7] rfl).1,
   (interrupt_clean_shutdown 8 (initState Nat) 0 0 [7] rfl).2.1⟩

/-- Claim C10: the progress table mutates only on progress messages, and then
only at the sender's entry, all other entries unchanged; found messages,
ticks and SIGINT never touch the table, and the summary a found message
triggers totals the table from before the message, excluding the checked
count carried only in the found message itself. -/
theorem progress_table_frame {Cand : Type} (numWorkers : Nat)
    (s : CoordState Cand) (e : Event Cand) (w1 j : Nat) (c : Cand) (ds : List Nat) :
    ((∀ w2 ds2, e ≠ Event.msg (WireMsg.progress w2 ds2)) →
      (step numWorkers s e).workerProgress = s.workerProgress) ∧
    (j ≠ w1 →
      (step numWorkers s (Event.msg (WireMsg.progress w1 ds))).workerProgress j =
        s.workerProgress j) ∧
    (s.exitCode = none →
      (step numWorkers s (Event.msg (WireMsg.progress w1 ds))).workerProgress w1 =
          Nat.ofDigits 10 ds ∧
      (step numWorkers s (Event.msg (WireMsg.progress w1 ds))).output = s.output ∧
      (step numWorkers s (Event.msg (WireMsg.found w1 c ds))).workerProgress =
        s.workerProgress ∧
      (step numWorkers s (Event.msg (WireMsg.found w1 c ds))).output =
        s.output ++ [OutputItem.foundBanner c (Nat.ofDigits 10 ds),
          OutputItem.summary (totalChecked numWorkers s.workerProgress) true]) := by
  refine ⟨?_, ?_, ?_⟩
  · intro hne
    rcases step_table numWorkers s e with hT | ⟨w2, ds2, _, rfl, _⟩
    · exact hT
    · exact absurd rfl (hne w2 ds2)
  · intro hj
    cases hex : s.exitCode.isSome with
    | true => rw [step_exited numWorkers s _ hex]
    | false => simp [step, hex, hj]
  · intro hlive
    have hex : s.exitCode.isSome = false := by simp [hlive]
    refine ⟨?_, ?_, ?_, ?_⟩ <;> simp [step, stopAll, hex]

/-- Witness for claim C10: a progress message from worker 0 leaves entry 3
alone and stores its decoded value at entry 0; a found message leaves the
table untouched. -/
theorem progress_table_frame_witness :
    ((3 : Nat) ≠ 0 ∧ (initState Nat).exitCode = none) ∧
    (step 8 (initState Nat) (Event.msg (WireMsg.progress 0 [5]))).workerProgress 3 =
      (initState Nat).workerProgress 3 ∧
    (step 8 (initState Nat) (Event.msg (WireMsg.progress 0 [5]))).workerProgress 0 =
      Nat.ofDigits 10 [5] ∧
    (step 8 (initState Nat) (Event.msg (WireMsg.found 0 7 [5]))).workerProgress =
      (initState Nat).workerProgress :=
  ⟨⟨by decide, rfl⟩,
   (progress_table_frame 8 (initState Nat) Event.tick 0 3 7 [5]).2.1 (by decide),
   ((progress_table_frame 8 (initState Nat) Event.tick 0 3 7 [5]).2.2 rfl).1,
   ((progress_table_frame 8 (initState Nat) Event.tick 0 3 7 [5]).2.2 rfl).2.2.1⟩

end UUIDBench
